import Mathlib

/-!
Verification development for the tunnel-proxy host: a connection-resilience
controller for a Dev Tunnels endpoint and a session multiplexer pooling CLI
worker processes by working directory.

The repository ships only the type declarations (src/dist/index.d.cts) with
their doc comments; the implementation chunk is not part of the sources.  The
definitions below are therefore shallow models built from the specification
and from the doc comments on the declarations, with explicit state passing in
place of the event loop, `Except`/`Option` in place of thrown exceptions, and
action traces in place of observable side effects.
-/

namespace TunnelProxy

/-! ### Auth model (AuthController, DevTunnelHostAdapter auth methods) -/

/-- A stored access+refresh token pair.  No expiry is tracked locally. -/
structure StoredToken where
  accessToken : String
  refreshToken : Option String
  obtainedAt : Nat
deriving Repr, DecidableEq

/-- State owned by the token store / auth controller. -/
structure AuthState where
  stored : Option StoredToken
deriving Repr, DecidableEq

/-- Result of one invocation of an authenticated management operation. -/
inductive OpResult (A : Type) where
  | ok (a : A)
  | unauthorized (msg : String)
  | failed (msg : String)

/-- Observable events of an auth-retry run. -/
inductive AuthEvent where
  | attempt (tok : String)
  | refreshTried
  | tokensCleared
  | deviceFlowRun
deriving Repr, DecidableEq

/-- Number of invocations of the underlying operation in an event trace. -/
def countAttempts : List AuthEvent → Nat
  | [] => 0
  | AuthEvent.attempt _ :: rest => countAttempts rest + 1
  | _ :: rest => countAttempts rest

/-- The refresh token currently stored, if any. -/
def storedRefreshToken (st : AuthState) : Option String :=
  match st.stored with
  | some tk => tk.refreshToken
  | none => none

/-- Modelled from the spec: `withAuthRetry(operation)` of the AuthController
(implementation `DevTunnelHostAdapter.withAuthRetry` is absent from the
sources).  Executes `operation` with the current token; on an unauthorized
failure it attempts exactly one refresh with the stored refresh token — on
refresh success it persists the new pair and retries once; on refresh failure
or a missing refresh token it clears tokens, runs the device flow and retries
once.  A second failure is surfaced unmodified; there is no further retry.
`refresh` maps a refresh token to an optional new access+refresh pair;
`flow` is the access+refresh pair the device-flow exchange would yield. -/
def withAuthRetry {A : Type} (operation : String → OpResult A)
    (refresh : String → Option (String × String))
    (flow : String × String) (now : Nat) (tok : String) (st : AuthState) :
    OpResult A × AuthState × List AuthEvent :=
  match operation tok with
  | OpResult.unauthorized _ =>
    match storedRefreshToken st with
    | some rt =>
      match refresh rt with
      | some (newAcc, newRef) =>
        (operation newAcc,
         AuthState.mk (some (StoredToken.mk newAcc (some newRef) now)),
         [AuthEvent.attempt tok, AuthEvent.refreshTried, AuthEvent.attempt newAcc])
      | none =>
        (operation flow.1,
         AuthState.mk (some (StoredToken.mk flow.1 (some flow.2) now)),
         [AuthEvent.attempt tok, AuthEvent.refreshTried, AuthEvent.tokensCleared,
          AuthEvent.deviceFlowRun, AuthEvent.attempt flow.1])
    | none =>
      (operation flow.1,
       AuthState.mk (some (StoredToken.mk flow.1 (some flow.2) now)),
       [AuthEvent.attempt tok, AuthEvent.tokensCleared,
        AuthEvent.deviceFlowRun, AuthEvent.attempt flow.1])
  | r => (r, st, [AuthEvent.attempt tok])

/-- Outcome of a device-flow exchange together with the prompt data it
displays to the user. -/
structure DeviceFlowResult where
  accessToken : String
  refreshToken : String
  verificationUri : String
  userCode : String
deriving Repr, DecidableEq

/-- Observable actions of `getStoredOrNewToken`. -/
inductive AuthAction where
  | emitAuthPrompt (uri : String) (userCode : String)
  | persistTokens (access : String) (refresh : String)
deriving Repr, DecidableEq

/-- Modelled from the spec: `getStoredOrNewToken()` of the AuthController
(implementation `DevTunnelHostAdapter.getStoredOrNewToken` is absent from the
sources).  Returns the stored access token if one exists — no expiry check;
otherwise runs the device flow (`flow` is its outcome), emits the
verification prompt, and persists the resulting token pair. -/
def getStoredOrNewToken (st : AuthState) (flow : DeviceFlowResult) (now : Nat) :
    String × AuthState × List AuthAction :=
  match st.stored with
  | some tk => (tk.accessToken, st, [])
  | none =>
    (flow.accessToken,
     AuthState.mk (some (StoredToken.mk flow.accessToken (some flow.refreshToken) now)),
     [AuthAction.emitAuthPrompt flow.verificationUri flow.userCode,
      AuthAction.persistTokens flow.accessToken flow.refreshToken])

/-! ### Tunnel config persistence -/

/-- Stored tunnel configuration (src/dist/index.d.cts, StoredTunnelConfig). -/
structure StoredTunnelConfig where
  tunnelId : String
  clusterId : String
  createdAt : String
deriving Repr, DecidableEq

/-- The slice of the file system the config store touches: the config
directory and the single config file.  File contents are modelled as the
record's field list; a list of the wrong shape is corrupt data. -/
structure ConfigFs where
  dirExists : Bool
  file : Option (List String)
deriving Repr, DecidableEq

/-- A raw file-system error, as thrown by the underlying read/delete. -/
inductive FsError where
  | notFound
deriving Repr, DecidableEq

/-- Raw file read: fails when the file is absent. -/
def rawReadFile (fs : ConfigFs) : Except FsError (List String) :=
  match fs.file with
  | some s => Except.ok s
  | none => Except.error FsError.notFound

/-- Raw file delete: fails when the file is absent. -/
def rawDeleteFile (fs : ConfigFs) : Except FsError ConfigFs :=
  match fs.file with
  | some _ => Except.ok (ConfigFs.mk fs.dirExists none)
  | none => Except.error FsError.notFound

/-- Serialization of a stored config into the file contents. -/
def serializeTunnelConfig (cfg : StoredTunnelConfig) : List String :=
  [cfg.tunnelId, cfg.clusterId, cfg.createdAt]

/-- Parse file contents back into a config; `none` on corrupt data. -/
def parseTunnelConfig (s : List String) : Option StoredTunnelConfig :=
  match s with
  | [a, b, c] => some (StoredTunnelConfig.mk a b c)
  | _ => none

/-- Modelled from the spec: `loadTunnelConfig()` (implementation absent from
the sources).  Reads the config file and parses it; a missing file or a parse
failure yields `none` rather than an error. -/
def loadTunnelConfig (fs : ConfigFs) : Except FsError (Option StoredTunnelConfig) :=
  match rawReadFile fs with
  | Except.error _ => Except.ok none
  | Except.ok s => Except.ok (parseTunnelConfig s)

/-- Modelled from the spec: `saveTunnelConfig(config)` (implementation absent
from the sources).  Creates the config directory if it does not exist, then
writes the serialized config. -/
def saveTunnelConfig (_fs : ConfigFs) (cfg : StoredTunnelConfig) : ConfigFs :=
  ConfigFs.mk true (some (serializeTunnelConfig cfg))

/-- Modelled from the spec: `clearTunnelConfig()` (implementation absent from
the sources).  Deletes the config file, tolerating its absence. -/
def clearTunnelConfig (fs : ConfigFs) : Except FsError ConfigFs :=
  match rawDeleteFile fs with
  | Except.ok fs' => Except.ok fs'
  | Except.error FsError.notFound => Except.ok (ConfigFs.mk fs.dirExists none)

/-! ### CLI grace-period default -/

/-- Modelled from the spec: default grace period before killing unused CLI
processes when `JsonRpcProxyOptions.cliGracePeriodMs` is not given
(implementation absent from the sources; the declaration's doc comment in
src/dist/index.d.cts states the default is 5 minutes). -/
def defaultCliGracePeriodMs : Nat := 300000

/-- Resolution of the optional `cliGracePeriodMs` constructor option. -/
def resolveCliGracePeriodMs (cliGracePeriodMs : Option Nat) : Nat :=
  match cliGracePeriodMs with
  | some v => v
  | none => defaultCliGracePeriodMs

/-! ### Session multiplexer (JsonRpcProxyHost) -/

/-- Client identifiers are assigned from a monotonic counter. -/
abbrev ClientId := Nat

/-- Session identifiers, unique within one worker process. -/
abbrev SessionId := String

/-- A working directory, the key of the CLI process pool. -/
abbrev Cwd := String

/-- A session known to the multiplexer: its id and the working directory of
the CliProcessEntry owning it. -/
structure SessionRec where
  sessionId : SessionId
  cwd : Cwd
deriving Repr, DecidableEq

/-- Multiplexer state: the sessions the worker holds and the current
client↔session bindings. -/
structure MuxState where
  sessions : List SessionRec
  bindings : List (ClientId × SessionId)
deriving Repr, DecidableEq

/-- Working directory of the entry owning a session, looked up among the
recorded sessions. -/
def sessionCwd : List SessionRec → SessionId → Option Cwd
  | [], _ => none
  | s0 :: rest, sid => if s0.sessionId = sid then some s0.cwd else sessionCwd rest sid

/-- The session ids a given client is currently bound to. -/
def boundSessions : List (ClientId × SessionId) → ClientId → List SessionId
  | [], _ => []
  | (c, s0) :: rest, id => if c = id then s0 :: boundSessions rest id
      else boundSessions rest id

/-- Bindings with every binding of the given client removed. -/
def removeClient : List (ClientId × SessionId) → ClientId → List (ClientId × SessionId)
  | [], _ => []
  | (c, s0) :: rest, id => if c = id then removeClient rest id
      else (c, s0) :: removeClient rest id

/-- One pool `release` per session in the list, each carrying the working
directory of the session's CliProcessEntry. -/
def releaseCalls (sessions : List SessionRec) : List SessionId → List Cwd
  | [] => []
  | sid :: rest =>
    match sessionCwd sessions sid with
    | some w => w :: releaseCalls sessions rest
    | none => releaseCalls sessions rest

/-- Modelled from the spec: `handleClientDisconnect(clientId)` of
JsonRpcProxyHost (implementation absent from the sources).  Unbinds the
client from all its sessions and issues one pool `release()` per bound
session; the sessions themselves are not destroyed. -/
def handleClientDisconnect (st : MuxState) (id : ClientId) : MuxState × List Cwd :=
  (MuxState.mk st.sessions (removeClient st.bindings id),
   releaseCalls st.sessions (boundSessions st.bindings id))

/-- Modelled from the spec: the notification fan-out performed inside
`JsonRpcProxyHost.handleClient` (implementation absent from the sources).  A
worker notification carrying session id `sid` is delivered to every client
currently bound to `sid`. -/
def deliverNotification : List (ClientId × SessionId) → SessionId → List ClientId
  | [], _ => []
  | (c, s0) :: rest, sid => if s0 = sid then c :: deliverNotification rest sid
      else deliverNotification rest sid

/-- Occurrences of a working directory among a list of `release` calls:
the pool's refCount delta for that directory. -/
def countCwd : List Cwd → Cwd → Nat
  | [], _ => 0
  | w0 :: rest, w => if w0 = w then countCwd rest w + 1 else countCwd rest w

/-- Number of sessions in the list owned by an entry with the given working
directory. -/
def countMatching (ss : List SessionRec) : List SessionId → Cwd → Nat
  | [], _ => 0
  | sid :: rest, w =>
    if sessionCwd ss sid = some w then countMatching ss rest w
      + 1
    else countMatching ss rest w

/-! ### Connection-resilience controller (DevTunnelHostAdapter) -/

/-- Connection status (src/dist/index.d.cts, ConnectionStatus). -/
inductive ConnectionStatus where
  | disconnected
  | connecting
  | connected
  | error
deriving Repr, DecidableEq

/-- Endpoint info returned by `start()` (src/dist/index.d.cts, TunnelInfo). -/
structure TunnelInfo where
  tunnelId : String
  clusterId : String
  port : Nat
  username : Option String
deriving Repr, DecidableEq

/-- Controller state: the authoritative connection status, the last-known
endpoint info, the retry counter seeding the backoff, the live timers, the
local listening surface, the connected client streams, and the number of
in-flight connect attempts. -/
structure ControllerState where
  status : ConnectionStatus
  lastInfo : Option TunnelInfo
  retryCount : Nat
  retryTimer : Bool
  networkCheckTimer : Bool
  sleepDetectionTimer : Bool
  listening : Bool
  clients : List ClientId
  inFlight : Nat
deriving Repr, DecidableEq

/-- The controller's initial state. -/
def controllerInit : ControllerState :=
  ControllerState.mk ConnectionStatus.disconnected none 0 false false false false [] 0

/-- Outcome observed by a caller of `start()`. -/
inductive StartOutcome where
  | reuse (info : Option TunnelInfo)
  | beginConnect
deriving Repr, DecidableEq

/-- Modelled from the spec: `start()` of the resilience controller
(implementation `DevTunnelHostAdapter.start` is absent from the sources).
If already connecting or connected it resolves with the existing/last-known
endpoint info and opens no new relay connection; otherwise it transitions to
connecting and begins a single connect attempt. -/
def startCall (s : ControllerState) : ControllerState × StartOutcome :=
  match s.status with
  | ConnectionStatus.connecting => (s, StartOutcome.reuse s.lastInfo)
  | ConnectionStatus.connected => (s, StartOutcome.reuse s.lastInfo)
  | _ =>
    (ControllerState.mk ConnectionStatus.connecting s.lastInfo s.retryCount
       s.retryTimer true true true s.clients (s.inFlight + 1),
     StartOutcome.beginConnect)

/-- Modelled from the spec: `stop()` of the resilience controller
(implementation `DevTunnelHostAdapter.stop` is absent from the sources).
Transitions to disconnected unconditionally, cancels all timers and in-flight
attempts, closes the local listening surface, and disconnects all clients. -/
def stopCall (s : ControllerState) : ControllerState :=
  ControllerState.mk ConnectionStatus.disconnected s.lastInfo s.retryCount
    false false false false [] 0

/-- Events driving the controller's state machine. -/
inductive CEvent where
  | start
  | connectSuccess (info : TunnelInfo)
  | connectFailure
  | stop
deriving Repr, DecidableEq

/-- Modelled from the spec: one transition of the controller state machine
(implementation absent from the sources).  A connect attempt ends on
success (→ connected, retry counter reset) or failure (→ error, backoff
retry scheduled); `stop` cancels everything. -/
def cstep (s : ControllerState) (e : CEvent) : ControllerState :=
  match e with
  | CEvent.start => (startCall s).1
  | CEvent.connectSuccess info =>
    match s.status with
    | ConnectionStatus.connecting =>
      ControllerState.mk ConnectionStatus.connected (some info) 0
        false s.networkCheckTimer s.sleepDetectionTimer s.listening s.clients 0
    | _ => s
  | CEvent.connectFailure =>
    match s.status with
    | ConnectionStatus.connecting =>
      ControllerState.mk ConnectionStatus.error s.lastInfo (s.retryCount + 1)
        true s.networkCheckTimer s.sleepDetectionTimer s.listening s.clients 0
    | _ => s
  | CEvent.stop => stopCall s

/-- States reachable from the controller's initial state. -/
inductive CReachable : ControllerState → Prop where
  | init : CReachable controllerInit
  | step (s : ControllerState) (e : CEvent) : CReachable s → CReachable (cstep s e)

/-- Single-flight invariant: a connect attempt is in flight only while
connecting, and never more than one. -/
def controllerInv (s : ControllerState) : Prop :=
  (s.status = ConnectionStatus.connecting → s.inFlight ≤ 1) ∧
  (s.status ≠ ConnectionStatus.connecting → s.inFlight = 0)

/-- Observable actions of the wake/keepalive handling. -/
inductive CAction where
  | keepAliveProbe
  | surfaceError (msg : String)
deriving Repr, DecidableEq

/-- Modelled from the spec: the shared behavior of `network-restored` and
`system-woke` handling (implementations `handleSystemWake` /
`handleNetworkChange` are absent from the sources).  Resets the retry counter
to its minimum; when currently connected, issues a keepalive probe. -/
def handleWakeOrRestore (s : ControllerState) : ControllerState × List CAction :=
  if s.status = ConnectionStatus.connected then
    (ControllerState.mk s.status s.lastInfo 0 s.retryTimer s.networkCheckTimer
       s.sleepDetectionTimer s.listening s.clients s.inFlight,
     [CAction.keepAliveProbe])
  else
    (ControllerState.mk s.status s.lastInfo 0 s.retryTimer s.networkCheckTimer
       s.sleepDetectionTimer s.listening s.clients s.inFlight,
     [])

/-- Modelled from the spec: one sample of the sleep-detection timer
(implementation `startSleepDetection` is absent from the sources).  A wake is
detected exactly when the gap between consecutive checks exceeds the
threshold, regardless of whether the network fingerprint changed. -/
def sleepCheck (lastCheckTime now threshold : Nat) (_fingerprintChanged : Bool)
    (s : ControllerState) : ControllerState × List CAction :=
  if threshold < now - lastCheckTime then handleWakeOrRestore s else (s, [])

/-- Modelled from the spec: keepalive failure handling (implementation
`handleConnectedWake` is absent from the sources).  A failed keepalive forces
a disconnect-then-reconnect — the controller goes back to connecting — and no
error is surfaced to any caller. -/
def handleKeepAliveFailure (s : ControllerState) : ControllerState × List CAction :=
  (ControllerState.mk ConnectionStatus.connecting s.lastInfo s.retryCount
     s.retryTimer s.networkCheckTimer s.sleepDetectionTimer s.listening
     s.clients s.inFlight,
   [])

/-! ### CLI process pool (CliProcessPool) -/

/-- A pool entry: reference count and, when the count is 0, the absolute
deadline at which the pending grace timer fires. -/
structure CliProcessEntry where
  refCount : Nat
  graceDeadline : Option Nat
deriving Repr, DecidableEq

/-- The pool: one entry per working directory. -/
abbrev PoolState := List (Cwd × CliProcessEntry)

/-- Events driving the pool: `acquire`/`release` for a directory at a wall
time, and the firing attempt of a grace timer at a wall time. -/
inductive PoolEvent where
  | acquire (wd : Cwd) (t : Nat)
  | release (wd : Cwd) (t : Nat)
  | timerFire (wd : Cwd) (t : Nat)
deriving Repr, DecidableEq

/-- Process-lifetime actions the pool performs. -/
inductive PoolAction where
  | spawn (wd : Cwd)
  | terminate (wd : Cwd)
deriving Repr, DecidableEq

/-- The entry registered for a working directory, if any. -/
def lookupEntry : PoolState → Cwd → Option CliProcessEntry
  | [], _ => none
  | (w, en) :: rest, wd => if w = wd then some en else lookupEntry rest wd

/-- Replace the entry registered for a working directory. -/
def setEntry : PoolState → Cwd → CliProcessEntry → PoolState
  | [], _, _ => []
  | (w, en0) :: rest, wd, en =>
    if w = wd then (w, en) :: rest else (w, en0) :: setEntry rest wd en

/-- Remove the entry registered for a working directory. -/
def removeEntry : PoolState → Cwd → PoolState
  | [], _ => []
  | (w, en0) :: rest, wd =>
    if w = wd then removeEntry rest wd else (w, en0) :: removeEntry rest wd

/-- Whether a grace deadline has been reached at wall time `t`. -/
def deadlineReached : Option Nat → Nat → Bool
  | some d, t => d ≤ t
  | none, _ => false

/-- Modelled from the spec: one transition of the CliProcessPool
(implementation `JsonRpcProxyHost.cliPoolManager` is absent from the
sources).  `acquire` on an existing entry increments the count and cancels
any pending grace timer; otherwise it spawns a worker with count 1.
`release` decrements the count and, when it reaches 0, arms the grace timer
with deadline `t + grace`.  A timer firing with the count still 0 at or
after its deadline terminates the process and removes the entry. -/
def stepPool (grace : Nat) (p : PoolState) : PoolEvent → PoolState × List PoolAction
  | PoolEvent.acquire wd _ =>
    match lookupEntry p wd with
    | some en => (setEntry p wd (CliProcessEntry.mk (en.refCount + 1) none), [])
    | none => (p ++ [(wd, CliProcessEntry.mk 1 none)], [PoolAction.spawn wd])
  | PoolEvent.release wd t =>
    match lookupEntry p wd with
    | some en =>
      match en.refCount with
      | 0 => (p, [])
      | rc + 1 =>
        (setEntry p wd
           (CliProcessEntry.mk rc (if rc = 0 then some (t + grace) else none)),
         [])
    | none => (p, [])
  | PoolEvent.timerFire wd t =>
    match lookupEntry p wd with
    | some en =>
      if en.refCount = 0 ∧ deadlineReached en.graceDeadline t then
        (removeEntry p wd, [PoolAction.terminate wd])
      else (p, [])
    | none => (p, [])

/-- Run the pool over a list of events from a given state. -/
def runPool (grace : Nat) : PoolState → List PoolEvent → PoolState
  | p, [] => p
  | p, e :: evs => runPool grace (stepPool grace p e).1 evs

/-- Whether an event is an `acquire` for the given directory. -/
def isAcquireFor (wd : Cwd) : PoolEvent → Bool
  | PoolEvent.acquire w _ => w = wd
  | _ => false

/-- The working directories registered in the pool. -/
def poolKeys (p : PoolState) : List Cwd := p.map Prod.fst

/-- At most one live entry per working directory. -/
def poolKeysOk (p : PoolState) : Prop :=
  ∀ wd, countCwd (poolKeys p) wd ≤ 1

/-- Grace-timer bookkeeping invariant of a run: an armed grace timer with
deadline `d` belongs to an entry with refCount 0 and stems from a `release`
at wall time `d - grace`, with no `acquire` for that directory since. -/
def timerInv (grace : Nat) (pre : List PoolEvent) : Prop :=
  ∀ wd en d, lookupEntry (runPool grace [] pre) wd = some en →
    en.graceDeadline = some d →
    en.refCount = 0 ∧
    ∃ p1 t p2, pre = p1 ++ PoolEvent.release wd t :: p2 ∧ d = t + grace ∧
      ∀ ev ∈ p2, isAcquireFor wd ev = false

/-! ## Theorems -/

/-- C10: when `JsonRpcProxyHost` is constructed without a `cliGracePeriodMs`
option, the grace period before an unused CLI process is killed defaults to
5 minutes (300000 ms). -/
theorem c10_cliGracePeriod_defaults_to_five_minutes :
    resolveCliGracePeriodMs none = 300000 ∧ 300000 = 5 * 60 * 1000 :=
  ⟨rfl, rfl⟩

/-- C9: `loadTunnelConfig()` returns `none` rather than failing when the
config file is missing or corrupt (and never fails on any file system);
`saveTunnelConfig()` leaves the config directory existing even when it did
not; `clearTunnelConfig()` succeeds when the file is already absent. -/
theorem c9_config_store_tolerates_missing_and_corrupt (d : Bool)
    (s : List String) (fs : ConfigFs) (cfg : StoredTunnelConfig)
    (hcorrupt : parseTunnelConfig s = none) :
    loadTunnelConfig (ConfigFs.mk d none) = Except.ok none ∧
    loadTunnelConfig (ConfigFs.mk d (some s)) = Except.ok none ∧
    (∃ v, loadTunnelConfig fs = Except.ok v) ∧
    (saveTunnelConfig fs cfg).dirExists = true ∧
    clearTunnelConfig (ConfigFs.mk d none) = Except.ok (ConfigFs.mk d none) := by
  refine ⟨rfl, ?_, ?_, rfl, rfl⟩
  · simp [loadTunnelConfig, rawReadFile, hcorrupt]
  · cases hf : fs.file with
    | none => exact ⟨none, by simp [loadTunnelConfig, rawReadFile, hf]⟩
    | some c => exact ⟨parseTunnelConfig c, by simp [loadTunnelConfig, rawReadFile, hf]⟩

/-- Witness for C9 at a concrete file system: missing file, the corrupt
contents `["x"]`, and a concrete config. -/
theorem c9_config_store_tolerates_missing_and_corrupt_witness :
    loadTunnelConfig (ConfigFs.mk false none) = Except.ok none ∧
    loadTunnelConfig (ConfigFs.mk false (some ["x"])) = Except.ok none ∧
    (∃ v, loadTunnelConfig (ConfigFs.mk false (some ["x"])) = Except.ok v) ∧
    (saveTunnelConfig (ConfigFs.mk false (some ["x"]))
       (StoredTunnelConfig.mk "t" "c" "a")).dirExists = true ∧
    clearTunnelConfig (ConfigFs.mk false none)
      = Except.ok (ConfigFs.mk false none) :=
  c9_config_store_tolerates_missing_and_corrupt false ["x"]
    (ConfigFs.mk false (some ["x"])) (StoredTunnelConfig.mk "t" "c" "a") rfl

/-- C6: `getStoredOrNewToken()` returns the cached access token whenever one
is stored, without consulting the clock (no local expiry check); when no
token is stored it runs the device flow, emits the verification URI and user
code via the auth callback, and persists the resulting access+refresh
pair. -/
theorem c6_getStoredOrNewToken_cached_or_device_flow (tk : StoredToken)
    (flow : DeviceFlowResult) (now now' : Nat) :
    getStoredOrNewToken (AuthState.mk (some tk)) flow now
      = (tk.accessToken, AuthState.mk (some tk), []) ∧
    getStoredOrNewToken (AuthState.mk (some tk)) flow now
      = getStoredOrNewToken (AuthState.mk (some tk)) flow now' ∧
    getStoredOrNewToken (AuthState.mk none) flow now
      = (flow.accessToken,
         AuthState.mk (some (StoredToken.mk flow.accessToken
           (some flow.refreshToken) now)),
         [AuthAction.emitAuthPrompt flow.verificationUri flow.userCode,
          AuthAction.persistTokens flow.accessToken flow.refreshToken]) :=
  ⟨rfl, rfl, rfl⟩

/-- C1: on an operation that fails unauthorized on every invocation,
`withAuthRetry` invokes the operation exactly 2 times and surfaces the
second failure to the caller unmodified. -/
theorem c1_withAuthRetry_exactly_two_attempts {A : Type}
    (operation : String → OpResult A)
    (refresh : String → Option (String × String)) (flow : String × String)
    (now : Nat) (tok : String) (st : AuthState)
    (h : ∀ t, ∃ m, operation t = OpResult.unauthorized m) :
    countAttempts (withAuthRetry operation refresh flow now tok st).2.2 = 2 ∧
    ∃ t2 m, (withAuthRetry operation refresh flow now tok st).1 = operation t2 ∧
      (withAuthRetry operation refresh flow now tok st).1
        = OpResult.unauthorized m := by
  obtain ⟨m1, h1⟩ := h tok
  cases hrt : storedRefreshToken st with
  | none =>
    obtain ⟨m2, h2⟩ := h flow.1
    refine ⟨by simp [withAuthRetry, h1, hrt, countAttempts], flow.1, m2, ?_, ?_⟩
    · simp [withAuthRetry, h1, hrt]
    · simp [withAuthRetry, h1, hrt, h2]
  | some rt =>
    cases href : refresh rt with
    | none =>
      obtain ⟨m2, h2⟩ := h flow.1
      refine ⟨by simp [withAuthRetry, h1, hrt, href, countAttempts], flow.1, m2, ?_, ?_⟩
      · simp [withAuthRetry, h1, hrt, href]
      · simp [withAuthRetry, h1, hrt, href, h2]
    | some pr =>
      obtain ⟨m2, h2⟩ := h pr.1
      refine ⟨by simp [withAuthRetry, h1, hrt, href, countAttempts], pr.1, m2, ?_, ?_⟩
      · simp [withAuthRetry, h1, hrt, href]
      · simp [withAuthRetry, h1, hrt, href, h2]

/-- Witness for C1: a concrete always-unauthorized operation with no stored
refresh token. -/
theorem c1_withAuthRetry_exactly_two_attempts_witness :
    countAttempts (withAuthRetry (fun _ : String => (OpResult.unauthorized "x" : OpResult Nat))
      (fun _ : String => none) ("a", "r") 0 "t" (AuthState.mk none)).2.2 = 2 ∧
    ∃ t2 : String, ∃ m : String,
      (withAuthRetry (fun _ : String => (OpResult.unauthorized "x" : OpResult Nat))
        (fun _ : String => none) ("a", "r") 0 "t" (AuthState.mk none)).1
        = (fun _ : String => (OpResult.unauthorized "x" : OpResult Nat)) t2 ∧
      (withAuthRetry (fun _ : String => (OpResult.unauthorized "x" : OpResult Nat))
        (fun _ : String => none) ("a", "r") 0 "t" (AuthState.mk none)).1
        = OpResult.unauthorized m :=
  c1_withAuthRetry_exactly_two_attempts _ _ _ _ _ _ (fun _ => ⟨"x", rfl⟩)

/-- C5: a worker notification for session `sid` is delivered exactly to the
clients currently bound to `sid`: every bound client receives it (so several
clients bound to one session all do), and a client not bound to `sid` — in
particular one bound only to other sessions — does not. -/
theorem c5_notification_fanout_exactly_bound_clients
    (bs : List (ClientId × SessionId)) (sid : SessionId) (c : ClientId) :
    c ∈ deliverNotification bs sid ↔ (c, sid) ∈ bs := by
  induction bs with
  | nil => simp [deliverNotification]
  | cons b rest ih =>
    obtain ⟨c0, s0⟩ := b
    by_cases hs : s0 = sid
    · subst hs
      simp [deliverNotification, ih, Prod.ext_iff]
    · simp [deliverNotification, hs, ih, Prod.ext_iff]
      intro hc hsid
      exact absurd hsid.symm hs

/-- When every session in the list resolves to an owning entry, one release
call is issued per session. -/
theorem releaseCalls_length (ss : List SessionRec) (sids : List SessionId)
    (h : ∀ sid ∈ sids, (sessionCwd ss sid).isSome) :
    (releaseCalls ss sids).length = sids.length := by
  induction sids with
  | nil => rfl
  | cons sid rest ih =>
    have h1 := h sid (List.mem_cons_self sid rest)
    cases hc : sessionCwd ss sid with
    | none => rw [hc] at h1; simp at h1
    | some w =>
      have := ih (fun x hx => h x (List.mem_cons_of_mem _ hx))
      simp [releaseCalls, hc, this]

/-- The release calls hit each working directory once per session owned by
an entry in that directory. -/
theorem countCwd_releaseCalls (ss : List SessionRec) (sids : List SessionId)
    (w : Cwd) :
    countCwd (releaseCalls ss sids) w = countMatching ss sids w := by
  induction sids with
  | nil => rfl
  | cons sid rest ih =>
    cases hc : sessionCwd ss sid with
    | none => simp [releaseCalls, countMatching, hc, ih]
    | some w0 =>
      by_cases hw : w0 = w
      · subst hw
        simp [releaseCalls, countMatching, countCwd, hc, ih]
      · simp [releaseCalls, countMatching, countCwd, hc, hw, ih]

/-- After removing a client, it is bound to no session. -/
theorem boundSessions_removeClient_self (bs : List (ClientId × SessionId))
    (id : ClientId) : boundSessions (removeClient bs id) id = [] := by
  induction bs with
  | nil => rfl
  | cons b rest ih =>
    obtain ⟨c, s0⟩ := b
    by_cases hc : c = id <;> simp [removeClient, boundSessions, hc, ih]

/-- Removing a client leaves every other client's bindings unchanged. -/
theorem boundSessions_removeClient_other (bs : List (ClientId × SessionId))
    (id c : ClientId) (h : c ≠ id) :
    boundSessions (removeClient bs id) c = boundSessions bs c := by
  induction bs with
  | nil => rfl
  | cons b rest ih =>
    obtain ⟨c0, s0⟩ := b
    by_cases hc : c0 = id
    · subst hc
      have : c0 ≠ c := fun he => h he.symm
      simp [removeClient, boundSessions, this, ih]
    · by_cases hcc : c0 = c <;> simp [removeClient, boundSessions, hc, hcc, ih, h]

/-- C4: `handleClientDisconnect(clientId)` for a client bound to N sessions
issues exactly N pool `release()` calls — one per session, so the refCount
delta per working directory equals the number of the client's sessions in
that directory even when several share it — unbinds the client from all its
sessions, leaves other clients' bindings alone, and does not destroy any
session. -/
theorem c4_handleClientDisconnect_releases_per_session (st : MuxState)
    (id : ClientId)
    (wf : ∀ sid ∈ boundSessions st.bindings id,
      (sessionCwd st.sessions sid).isSome) :
    (handleClientDisconnect st id).2.length
      = (boundSessions st.bindings id).length ∧
    (∀ w, countCwd (handleClientDisconnect st id).2 w
      = countMatching st.sessions (boundSessions st.bindings id) w) ∧
    (handleClientDisconnect st id).1.sessions = st.sessions ∧
    boundSessions (handleClientDisconnect st id).1.bindings id = [] ∧
    (∀ c, c ≠ id → boundSessions (handleClientDisconnect st id).1.bindings c
      = boundSessions st.bindings c) :=
  ⟨releaseCalls_length _ _ wf, fun w => countCwd_releaseCalls _ _ w, rfl,
   boundSessions_removeClient_self _ _,
   fun _ hc => boundSessions_removeClient_other _ _ _ hc⟩

/-- Witness for C4: one client bound to two sessions sharing one working
directory — two releases, refCount delta 2 for that directory. -/
theorem c4_handleClientDisconnect_releases_per_session_witness :
    (handleClientDisconnect (MuxState.mk
        [SessionRec.mk "s1" "w", SessionRec.mk "s2" "w"]
        [(1, "s1"), (1, "s2")]) 1).2.length
      = (boundSessions [(1, "s1"), (1, "s2")] 1).length ∧
    (∀ w, countCwd (handleClientDisconnect (MuxState.mk
        [SessionRec.mk "s1" "w", SessionRec.mk "s2" "w"]
        [(1, "s1"), (1, "s2")]) 1).2 w
      = countMatching [SessionRec.mk "s1" "w", SessionRec.mk "s2" "w"]
          (boundSessions [(1, "s1"), (1, "s2")] 1) w) ∧
    (handleClientDisconnect (MuxState.mk
        [SessionRec.mk "s1" "w", SessionRec.mk "s2" "w"]
        [(1, "s1"), (1, "s2")]) 1).1.sessions
      = [SessionRec.mk "s1" "w", SessionRec.mk "s2" "w"] ∧
    boundSessions (handleClientDisconnect (MuxState.mk
        [SessionRec.mk "s1" "w", SessionRec.mk "s2" "w"]
        [(1, "s1"), (1, "s2")]) 1).1.bindings 1 = [] ∧
    (∀ c, c ≠ 1 → boundSessions (handleClientDisconnect (MuxState.mk
        [SessionRec.mk "s1" "w", SessionRec.mk "s2" "w"]
        [(1, "s1"), (1, "s2")]) 1).1.bindings c
      = boundSessions [(1, "s1"), (1, "s2")] c) :=
  c4_handleClientDisconnect_releases_per_session
    (MuxState.mk [SessionRec.mk "s1" "w", SessionRec.mk "s2" "w"]
      [(1, "s1"), (1, "s2")]) 1 (by decide)

/-- C7: `stop()` unconditionally transitions to disconnected, cancels every
timer and in-flight attempt, closes the listening surface, disconnects all
client streams, and is idempotent; the state machine's stop event is exactly
this transition. -/
theorem c7_stop_unconditional_and_idempotent (s : ControllerState) :
    (stopCall s).status = ConnectionStatus.disconnected ∧
    (stopCall s).retryTimer = false ∧
    (stopCall s).networkCheckTimer = false ∧
    (stopCall s).sleepDetectionTimer = false ∧
    (stopCall s).inFlight = 0 ∧
    (stopCall s).listening = false ∧
    (stopCall s).clients = [] ∧
    stopCall (stopCall s) = stopCall s ∧
    cstep s CEvent.stop = stopCall s :=
  ⟨rfl, rfl, rfl, rfl, rfl, rfl, rfl, rfl, rfl⟩

/-- C8: wake detection fires on the check-gap alone, independent of the
network fingerprint; a detected wake (like a network-restore) resets the
retry counter to its minimum; if connected at that moment a keepalive probe
is issued; and a keepalive failure forces disconnect-then-reconnect without
surfacing an error to any caller. -/
theorem c8_wake_resets_retry_and_probes (lastCheckTime now threshold : Nat)
    (fp fp' : Bool) (s : ControllerState) :
    sleepCheck lastCheckTime now threshold fp s
      = sleepCheck lastCheckTime now threshold fp' s ∧
    (threshold < now - lastCheckTime →
      (sleepCheck lastCheckTime now threshold fp s).1.retryCount = 0 ∧
      (s.status = ConnectionStatus.connected →
        CAction.keepAliveProbe ∈ (sleepCheck lastCheckTime now threshold fp s).2)) ∧
    (handleWakeOrRestore s).1.retryCount = 0 ∧
    (handleKeepAliveFailure s).1.status = ConnectionStatus.connecting ∧
    (handleKeepAliveFailure s).2 = [] := by
  have hretry : (handleWakeOrRestore s).1.retryCount = 0 := by
    by_cases hs : s.status = ConnectionStatus.connected <;>
      simp [handleWakeOrRestore, hs]
  refine ⟨rfl, ?_, hretry, rfl, rfl⟩
  intro hgap
  constructor
  · simpa [sleepCheck, hgap] using hretry
  · intro hconn
    simp [sleepCheck, hgap, handleWakeOrRestore, hconn]

/-- Witness for C8 at a concrete gap (100 > threshold 10) and a concrete
connected state. -/
theorem c8_wake_resets_retry_and_probes_witness :
    (sleepCheck 0 100 10 true (ControllerState.mk ConnectionStatus.connected
        none 3 false true true true [] 0)).1.retryCount = 0 ∧
    CAction.keepAliveProbe ∈ (sleepCheck 0 100 10 true
      (ControllerState.mk ConnectionStatus.connected
        none 3 false true true true [] 0)).2 := by
  have h := c8_wake_resets_retry_and_probes 0 100 10 true false
    (ControllerState.mk ConnectionStatus.connected none 3 false true true true [] 0)
  exact ⟨(h.2.1 (by decide)).1, (h.2.1 (by decide)).2 rfl⟩

/-- The single-flight invariant holds initially. -/
theorem controllerInv_init : controllerInv controllerInit :=
  ⟨fun h => by simp [controllerInit] at h, fun _ => rfl⟩

/-- The single-flight invariant is preserved by every controller step. -/
theorem controllerInv_step (s : ControllerState) (e : CEvent)
    (h : controllerInv s) : controllerInv (cstep s e) := by
  obtain ⟨h1, h2⟩ := h
  cases e with
  | start =>
    cases hs : s.status with
    | connecting =>
      have hcs : cstep s CEvent.start = s := by simp [cstep, startCall, hs]
      rw [hcs]
      exact ⟨h1, h2⟩
    | connected =>
      have := h2 (by simp [hs])
      simp [cstep, startCall, hs, controllerInv, this]
    | disconnected =>
      have := h2 (by simp [hs])
      simp [cstep, startCall, hs, controllerInv, this]
    | error =>
      have := h2 (by simp [hs])
      simp [cstep, startCall, hs, controllerInv, this]
  | connectSuccess info =>
    cases hs : s.status <;> simp [cstep, hs, controllerInv] <;>
      simp [hs] at h1 h2 <;> simp [h1, h2]
  | connectFailure =>
    cases hs : s.status <;> simp [cstep, hs, controllerInv] <;>
      simp [hs] at h1 h2 <;> simp [h1, h2]
  | stop => exact ⟨fun hc => by simp [cstep, stopCall] at hc, fun _ => rfl⟩

/-- Every reachable controller state satisfies the single-flight
invariant. -/
theorem controllerInv_reachable (s : ControllerState) (h : CReachable s) :
    controllerInv s := by
  induction h with
  | init => exact controllerInv_init
  | step s0 e _ ih => exact controllerInv_step s0 e ih

/-- C3: in every reachable controller state at most one connect attempt is
in flight, and `start()` while already connecting or connected leaves the
state untouched — it opens no second relay connection — and resolves with
the existing/last-known endpoint info. -/
theorem c3_start_single_flight_idempotent (s : ControllerState)
    (h : CReachable s) :
    s.inFlight ≤ 1 ∧
    ((s.status = ConnectionStatus.connecting ∨
        s.status = ConnectionStatus.connected) →
      startCall s = (s, StartOutcome.reuse s.lastInfo)) := by
  have hi := controllerInv_reachable s h
  constructor
  · by_cases hc : s.status = ConnectionStatus.connecting
    · exact hi.1 hc
    · simp [hi.2 hc]
  · rintro (h1 | h1) <;> simp [startCall, h1]

/-- Witness for C3 at the reachable state obtained by one `start` from the
initial state (a connecting state with one attempt in flight). -/
theorem c3_start_single_flight_idempotent_witness :
    (cstep controllerInit CEvent.start).inFlight ≤ 1 ∧
    (((cstep controllerInit CEvent.start).status = ConnectionStatus.connecting ∨
        (cstep controllerInit CEvent.start).status = ConnectionStatus.connected) →
      startCall (cstep controllerInit CEvent.start)
        = (cstep controllerInit CEvent.start,
           StartOutcome.reuse (cstep controllerInit CEvent.start).lastInfo)) :=
  c3_start_single_flight_idempotent (cstep controllerInit CEvent.start)
    (CReachable.step controllerInit CEvent.start CReachable.init)

/-- Running a concatenation of event lists runs them in sequence. -/
theorem runPool_append (grace : Nat) (p : PoolState) (l1 l2 : List PoolEvent) :
    runPool grace p (l1 ++ l2) = runPool grace (runPool grace p l1) l2 := by
  induction l1 generalizing p with
  | nil => rfl
  | cons e rest ih => simp [runPool, ih]

/-- Directory occurrences add up over concatenation. -/
theorem countCwd_append (l1 l2 : List Cwd) (w : Cwd) :
    countCwd (l1 ++ l2) w = countCwd l1 w + countCwd l2 w := by
  induction l1 with
  | nil => simp [countCwd]
  | cons w0 rest ih =>
    by_cases hw : w0 = w <;> simp [countCwd, hw, ih] <;> omega

/-- Updating an entry does not change the registered directories. -/
theorem poolKeys_setEntry (p : PoolState) (wd : Cwd) (en : CliProcessEntry) :
    poolKeys (setEntry p wd en) = poolKeys p := by
  induction p with
  | nil => rfl
  | cons x rest ih =>
    obtain ⟨w, en0⟩ := x
    by_cases hw : w = wd <;> simp [setEntry, poolKeys, hw] <;>
      simpa [poolKeys] using ih

/-- Removing an entry cannot increase a directory's occurrence count. -/
theorem countCwd_poolKeys_removeEntry_le (p : PoolState) (wd w : Cwd) :
    countCwd (poolKeys (removeEntry p wd)) w ≤ countCwd (poolKeys p) w := by
  induction p with
  | nil => simp [removeEntry]
  | cons x rest ih =>
    obtain ⟨w0, en0⟩ := x
    have ih' : countCwd (List.map Prod.fst (removeEntry rest wd)) w
        ≤ countCwd (List.map Prod.fst rest) w := by simpa [poolKeys] using ih
    by_cases hw : w0 = wd
    · subst hw
      by_cases hww : w0 = w
      · subst hww
        simp [removeEntry, poolKeys, countCwd]
        omega
      · simp [removeEntry, poolKeys, countCwd, hww]
        omega
    · by_cases hww : w0 = w
      · subst hww
        simp [removeEntry, poolKeys, countCwd, hw]
        omega
      · simp [removeEntry, poolKeys, countCwd, hw, hww]
        omega

/-- An absent directory has occurrence count 0. -/
theorem countCwd_of_lookup_none (p : PoolState) (wd : Cwd)
    (h : lookupEntry p wd = none) : countCwd (poolKeys p) wd = 0 := by
  induction p with
  | nil => rfl
  | cons x rest ih =>
    obtain ⟨w0, en0⟩ := x
    by_cases hw : w0 = wd
    · simp [lookupEntry, hw] at h
    · simp [lookupEntry, hw] at h
      simp [poolKeys, countCwd, hw]
      simpa [poolKeys] using ih h

/-- Appending a fresh entry makes it the lookup result for its directory. -/
theorem lookup_append_single_self (p : PoolState) (wd : Cwd)
    (en : CliProcessEntry) (h : lookupEntry p wd = none) :
    lookupEntry (p ++ [(wd, en)]) wd = some en := by
  induction p with
  | nil => simp [lookupEntry]
  | cons x rest ih =>
    obtain ⟨w0, en0⟩ := x
    by_cases hw : w0 = wd
    · simp [lookupEntry, hw] at h
    · simp [lookupEntry, hw] at h ⊢
      exact ih h

/-- Appending an entry for another directory does not affect a lookup. -/
theorem lookup_append_single_ne (p : PoolState) (w0 wd : Cwd)
    (en : CliProcessEntry) (h : wd ≠ w0) :
    lookupEntry (p ++ [(w0, en)]) wd = lookupEntry p wd := by
  induction p with
  | nil => simp [lookupEntry, Ne.symm h]
  | cons x rest ih =>
    obtain ⟨w1, en1⟩ := x
    by_cases hw : w1 = wd <;> simp [lookupEntry, hw, ih]

/-- A present entry is still found after any append. -/
theorem lookup_append_of_some (p q : PoolState) (wd : Cwd)
    (en : CliProcessEntry) (h : lookupEntry p wd = some en) :
    lookupEntry (p ++ q) wd = some en := by
  induction p with
  | nil => simp [lookupEntry] at h
  | cons x rest ih =>
    obtain ⟨w1, en1⟩ := x
    by_cases hw : w1 = wd
    · simp [lookupEntry, hw] at h ⊢
      exact h
    · simp [lookupEntry, hw] at h ⊢
      exact ih h

/-- Updating a present entry makes the update the lookup result. -/
theorem lookup_setEntry_self (p : PoolState) (wd : Cwd)
    (en en0 : CliProcessEntry) (h : lookupEntry p wd = some en0) :
    lookupEntry (setEntry p wd en) wd = some en := by
  induction p with
  | nil => simp [lookupEntry] at h
  | cons x rest ih =>
    obtain ⟨w1, en1⟩ := x
    by_cases hw : w1 = wd <;> simp [lookupEntry, setEntry, hw] at h ⊢ <;>
      simp [lookupEntry, hw, ih h]

/-- Updating one directory's entry leaves other lookups unchanged. -/
theorem lookup_setEntry_ne (p : PoolState) (w0 wd : Cwd)
    (en : CliProcessEntry) (h : wd ≠ w0) :
    lookupEntry (setEntry p w0 en) wd = lookupEntry p wd := by
  induction p with
  | nil => rfl
  | cons x rest ih =>
    obtain ⟨w1, en1⟩ := x
    by_cases hw : w1 = w0
    · subst hw
      simp [setEntry, lookupEntry, Ne.symm h]
    · by_cases hw2 : w1 = wd <;> simp [setEntry, lookupEntry, hw, hw2, ih, h]

/-- After removing a directory its lookup is empty. -/
theorem lookup_removeEntry_self (p : PoolState) (wd : Cwd) :
    lookupEntry (removeEntry p wd) wd = none := by
  induction p with
  | nil => rfl
  | cons x rest ih =>
    obtain ⟨w1, en1⟩ := x
    by_cases hw : w1 = wd <;> simp [removeEntry, lookupEntry, hw, ih]

/-- Removing one directory leaves other lookups unchanged. -/
theorem lookup_removeEntry_ne (p : PoolState) (w0 wd : Cwd) (h : wd ≠ w0) :
    lookupEntry (removeEntry p w0) wd = lookupEntry p wd := by
  induction p with
  | nil => rfl
  | cons x rest ih =>
    obtain ⟨w1, en1⟩ := x
    by_cases hw : w1 = w0
    · subst hw
      simp [removeEntry, lookupEntry, Ne.symm h, ih]
    · by_cases hw2 : w1 = wd <;> simp [removeEntry, lookupEntry, hw, hw2, ih, h]

/-- Each pool step keeps at most one entry per working directory. -/
theorem poolKeysOk_step (grace : Nat) (p : PoolState) (e : PoolEvent)
    (h : poolKeysOk p) : poolKeysOk (stepPool grace p e).1 := by
  intro wd
  cases e with
  | acquire wd' t =>
    cases hl : lookupEntry p wd' with
    | some en =>
      simpa [stepPool, hl, poolKeys_setEntry] using h wd
    | none =>
      have h0 := countCwd_of_lookup_none p wd' hl
      by_cases hww : wd' = wd
      · subst hww
        simp [stepPool, hl, poolKeys, countCwd_append]
        simpa [poolKeys, countCwd] using Nat.le_of_eq h0
      · simp [stepPool, hl, poolKeys, countCwd_append]
        have := h wd
        simpa [poolKeys, countCwd, hww] using this
  | release wd' t =>
    cases hl : lookupEntry p wd' with
    | some en =>
      cases hrc : en.refCount with
      | zero => simpa [stepPool, hl, hrc] using h wd
      | succ rc => simpa [stepPool, hl, hrc, poolKeys_setEntry] using h wd
    | none => simpa [stepPool, hl] using h wd
  | timerFire wd' t =>
    cases hl : lookupEntry p wd' with
    | some en =>
      by_cases hfire : en.refCount = 0 ∧ deadlineReached en.graceDeadline t
      · have hle := countCwd_poolKeys_removeEntry_le p wd' wd
        simp [stepPool, hl, hfire]
        exact le_trans hle (h wd)
      · simpa [stepPool, hl, hfire] using h wd
    | none => simpa [stepPool, hl] using h wd

/-- Any run from an at-most-one-entry state keeps at most one entry per
directory. -/
theorem poolKeysOk_run (grace : Nat) (evs : List PoolEvent) (p : PoolState)
    (h : poolKeysOk p) : poolKeysOk (runPool grace p evs) := by
  induction evs generalizing p with
  | nil => exact h
  | cons e rest ih => exact ih _ (poolKeysOk_step grace p e h)

/-- The empty pool has at most one entry per directory. -/
theorem poolKeysOk_nil : poolKeysOk ([] : PoolState) := by
  intro wd
  simp [poolKeys, countCwd]

/-- A spawn happens only on an `acquire` finding no entry for the
directory, and registers the fresh entry. -/
theorem spawn_step (grace : Nat) (p : PoolState) (e : PoolEvent) (wd : Cwd)
    (h : PoolAction.spawn wd ∈ (stepPool grace p e).2) :
    lookupEntry p wd = none ∧ ∃ t, e = PoolEvent.acquire wd t ∧
      (stepPool grace p e).1 = p ++ [(wd, CliProcessEntry.mk 1 none)] := by
  cases e with
  | acquire wd' t =>
    cases hl : lookupEntry p wd' with
    | some en => simp [stepPool, hl] at h
    | none =>
      simp [stepPool, hl] at h
      subst h
      exact ⟨hl, t, rfl, by simp [stepPool, hl]⟩
  | release wd' t =>
    cases hl : lookupEntry p wd' with
    | some en =>
      cases hrc : en.refCount with
      | zero => simp [stepPool, hl, hrc] at h
      | succ rc => simp [stepPool, hl, hrc] at h
    | none => simp [stepPool, hl] at h
  | timerFire wd' t =>
    cases hl : lookupEntry p wd' with
    | some en =>
      by_cases hfire : en.refCount = 0 ∧ deadlineReached en.graceDeadline t <;>
        simp [stepPool, hl, hfire] at h
    | none => simp [stepPool, hl] at h

/-- A terminate happens only on a timer firing at or past its deadline with
the reference count still 0, and removes the entry. -/
theorem terminate_step (grace : Nat) (p : PoolState) (e : PoolEvent) (wd : Cwd)
    (h : PoolAction.terminate wd ∈ (stepPool grace p e).2) :
    ∃ t en, e = PoolEvent.timerFire wd t ∧ lookupEntry p wd = some en ∧
      en.refCount = 0 ∧ deadlineReached en.graceDeadline t = true ∧
      (stepPool grace p e).1 = removeEntry p wd := by
  cases e with
  | acquire wd' t =>
    cases hl : lookupEntry p wd' with
    | some en => simp [stepPool, hl] at h
    | none => simp [stepPool, hl] at h
  | release wd' t =>
    cases hl : lookupEntry p wd' with
    | some en =>
      cases hrc : en.refCount with
      | zero => simp [stepPool, hl, hrc] at h
      | succ rc => simp [stepPool, hl, hrc] at h
    | none => simp [stepPool, hl] at h
  | timerFire wd' t =>
    cases hl : lookupEntry p wd' with
    | some en =>
      by_cases hfire : en.refCount = 0 ∧ deadlineReached en.graceDeadline t
      · simp [stepPool, hl, hfire] at h
        subst h
        exact ⟨t, en, rfl, hl, hfire.1, hfire.2, by simp [stepPool, hl, hfire]⟩
      · simp [stepPool, hl, hfire] at h
    | none => simp [stepPool, hl] at h

/-- An entry can only vanish in a step that terminates its process. -/
theorem step_lost_terminate (grace : Nat) (p : PoolState) (e : PoolEvent)
    (wd : Cwd) (en : CliProcessEntry) (hs : lookupEntry p wd = some en)
    (hn : lookupEntry (stepPool grace p e).1 wd = none) :
    PoolAction.terminate wd ∈ (stepPool grace p e).2 := by
  cases e with
  | acquire wd' t =>
    cases hl : lookupEntry p wd' with
    | some en0 =>
      by_cases hww : wd = wd'
      · subst hww
        rw [hs] at hl
        cases hl
        simp [stepPool, hs, lookup_setEntry_self p wd _ en hs] at hn
      · simp [stepPool, hl, lookup_setEntry_ne p wd' wd _ hww, hs] at hn
    | none =>
      simp [stepPool, hl, lookup_append_of_some p _ wd en hs] at hn
  | release wd' t =>
    cases hl : lookupEntry p wd' with
    | some en0 =>
      cases hrc : en0.refCount with
      | zero => simp [stepPool, hl, hrc, hs] at hn
      | succ rc =>
        by_cases hww : wd = wd'
        · subst hww
          rw [hs] at hl
          cases hl
          simp [stepPool, hs, hrc, lookup_setEntry_self p wd _ en hs] at hn
        · simp [stepPool, hl, hrc, lookup_setEntry_ne p wd' wd _ hww, hs] at hn
    | none => simp [stepPool, hl, hs] at hn
  | timerFire wd' t =>
    cases hl : lookupEntry p wd' with
    | some en0 =>
      by_cases hfire : en0.refCount = 0 ∧ deadlineReached en0.graceDeadline t
      · by_cases hww : wd = wd'
        · subst hww
          simp [stepPool, hl, hfire]
        · simp [stepPool, hl, hfire, lookup_removeEntry_ne p wd' wd hww, hs] at hn
      · simp [stepPool, hl, hfire, hs] at hn
    | none => simp [stepPool, hl, hs] at hn

/-- Over a run, a present entry can only become absent through a step that
terminates its process. -/
theorem run_lost_terminate (grace : Nat) (l : List PoolEvent) (p : PoolState)
    (wd : Cwd) (en : CliProcessEntry) (hs : lookupEntry p wd = some en)
    (hn : lookupEntry (runPool grace p l) wd = none) :
    ∃ l1 e l2, l = l1 ++ e :: l2 ∧
      PoolAction.terminate wd ∈ (stepPool grace (runPool grace p l1) e).2 := by
  induction l generalizing p en with
  | nil =>
    rw [show runPool grace p [] = p from rfl, hs] at hn
    cases hn
  | cons e rest ih =>
    cases hmid : lookupEntry (stepPool grace p e).1 wd with
    | none =>
      exact ⟨[], e, rest, rfl, step_lost_terminate grace p e wd en hs hmid⟩
    | some en' =>
      have hrun : runPool grace p (e :: rest)
          = runPool grace (stepPool grace p e).1 rest := rfl
      rw [hrun] at hn
      obtain ⟨l1, e0, l2, hdec, hterm⟩ := ih (stepPool grace p e).1 en' hmid hn
      exact ⟨e :: l1, e0, l2, by simp [hdec], hterm⟩

/-- The empty run satisfies the grace-timer invariant. -/
theorem timerInv_nil (grace : Nat) : timerInv grace [] := by
  intro wd en d hl _
  simp [runPool, lookupEntry] at hl

/-- Extending a run by an event that is not an `acquire` for the directory
preserves the grace-timer invariant's conclusion for an entry it does not
touch. -/
theorem timerInv_extend (grace : Nat) (l : List PoolEvent) (e : PoolEvent)
    (wd : Cwd) (en : CliProcessEntry) (d : Nat) (ih : timerInv grace l)
    (hl : lookupEntry (runPool grace [] l) wd = some en)
    (hd : en.graceDeadline = some d) (he : isAcquireFor wd e = false) :
    en.refCount = 0 ∧
    ∃ p1 t p2, l ++ [e] = p1 ++ PoolEvent.release wd t :: p2 ∧ d = t + grace ∧
      ∀ ev ∈ p2, isAcquireFor wd ev = false := by
  obtain ⟨hrc, p1, t, p2, hdec, hdg, hacq⟩ := ih wd en d hl hd
  refine ⟨hrc, p1, t, p2 ++ [e], ?_, hdg, ?_⟩
  · rw [hdec]
    simp
  · intro ev hev
    rcases List.mem_append.1 hev with h0 | h0
    · exact hacq ev h0
    · rw [List.mem_singleton.1 h0]
      exact he

/-- Every run satisfies the grace-timer invariant: an armed deadline `d`
stems from the `release` that dropped the count to 0 at time `d - grace`,
with no `acquire` for that directory since. -/
theorem timerInv_all (grace : Nat) (pre : List PoolEvent) :
    timerInv grace pre := by
  induction pre using List.reverseRecOn with
  | nil => exact timerInv_nil grace
  | append_singleton l e ih =>
    intro wd en d hl hd
    rw [runPool_append] at hl
    rw [show runPool grace (runPool grace [] l) [e]
        = (stepPool grace (runPool grace [] l) e).1 from rfl] at hl
    cases e with
    | acquire wd' t' =>
      cases hpl : lookupEntry (runPool grace [] l) wd' with
      | some en0 =>
        by_cases hww : wd = wd'
        · subst hww
          rw [show (stepPool grace (runPool grace [] l) (PoolEvent.acquire wd t')).1
              = setEntry (runPool grace [] l) wd
                  (CliProcessEntry.mk (en0.refCount + 1) none) from
              by simp [stepPool, hpl]] at hl
          rw [lookup_setEntry_self _ wd _ en0 hpl] at hl
          cases hl
          simp at hd
        · rw [show (stepPool grace (runPool grace [] l) (PoolEvent.acquire wd' t')).1
              = setEntry (runPool grace [] l) wd'
                  (CliProcessEntry.mk (en0.refCount + 1) none) from
              by simp [stepPool, hpl],
            lookup_setEntry_ne _ wd' wd _ hww] at hl
          exact timerInv_extend grace l _ wd en d ih hl hd
            (by simp [isAcquireFor]; exact fun h => hww h.symm)
      | none =>
        by_cases hww : wd = wd'
        · subst hww
          rw [show (stepPool grace (runPool grace [] l) (PoolEvent.acquire wd t')).1
              = runPool grace [] l ++ [(wd, CliProcessEntry.mk 1 none)] from
              by simp [stepPool, hpl],
            lookup_append_single_self _ wd _ hpl] at hl
          cases hl
          simp at hd
        · rw [show (stepPool grace (runPool grace [] l) (PoolEvent.acquire wd' t')).1
              = runPool grace [] l ++ [(wd', CliProcessEntry.mk 1 none)] from
              by simp [stepPool, hpl],
            lookup_append_single_ne _ wd' wd _ hww] at hl
          exact timerInv_extend grace l _ wd en d ih hl hd
            (by simp [isAcquireFor]; exact fun h => hww h.symm)
    | release wd' t' =>
      cases hpl : lookupEntry (runPool grace [] l) wd' with
      | some en0 =>
        cases hrc : en0.refCount with
        | zero =>
          rw [show (stepPool grace (runPool grace [] l) (PoolEvent.release wd' t')).1
              = runPool grace [] l from by simp [stepPool, hpl, hrc]] at hl
          exact timerInv_extend grace l _ wd en d ih hl hd (by simp [isAcquireFor])
        | succ rc =>
          by_cases hww : wd = wd'
          · subst hww
            rw [show (stepPool grace (runPool grace [] l) (PoolEvent.release wd t')).1
                = setEntry (runPool grace [] l) wd
                    (CliProcessEntry.mk rc
                      (if rc = 0 then some (t' + grace) else none)) from
                by simp [stepPool, hpl, hrc]] at hl
            rw [lookup_setEntry_self _ wd _ en0 hpl] at hl
            cases hl
            cases hrc0 : rc with
            | zero =>
              subst hrc0
              simp at hd
              refine ⟨rfl, l, t', [], by simp, by rw [hd], ?_⟩
              intro ev hev
              cases hev
            | succ rc' =>
              subst hrc0
              simp at hd
          · rw [show (stepPool grace (runPool grace [] l) (PoolEvent.release wd' t')).1
                = setEntry (runPool grace [] l) wd'
                    (CliProcessEntry.mk rc
                      (if rc = 0 then some (t' + grace) else none)) from
                by simp [stepPool, hpl, hrc],
              lookup_setEntry_ne _ wd' wd _ hww] at hl
            exact timerInv_extend grace l _ wd en d ih hl hd (by simp [isAcquireFor])
      | none =>
        rw [show (stepPool grace (runPool grace [] l) (PoolEvent.release wd' t')).1
            = runPool grace [] l from by simp [stepPool, hpl]] at hl
        exact timerInv_extend grace l _ wd en d ih hl hd (by simp [isAcquireFor])
    | timerFire wd' t' =>
      cases hpl : lookupEntry (runPool grace [] l) wd' with
      | some en0 =>
        by_cases hfire : en0.refCount = 0 ∧ deadlineReached en0.graceDeadline t'
        · by_cases hww : wd = wd'
          · subst hww
            rw [show (stepPool grace (runPool grace [] l) (PoolEvent.timerFire wd t')).1
                = removeEntry (runPool grace [] l) wd from
                by simp [stepPool, hpl, hfire],
              lookup_removeEntry_self] at hl
            cases hl
          · rw [show (stepPool grace (runPool grace [] l) (PoolEvent.timerFire wd' t')).1
                = removeEntry (runPool grace [] l) wd' from
                by simp [stepPool, hpl, hfire],
              lookup_removeEntry_ne _ wd' wd hww] at hl
            exact timerInv_extend grace l _ wd en d ih hl hd (by simp [isAcquireFor])
        · rw [show (stepPool grace (runPool grace [] l) (PoolEvent.timerFire wd' t')).1
              = runPool grace [] l from by simp [stepPool, hpl, hfire]] at hl
          exact timerInv_extend grace l _ wd en d ih hl hd (by simp [isAcquireFor])
      | none =>
        rw [show (stepPool grace (runPool grace [] l) (PoolEvent.timerFire wd' t')).1
            = runPool grace [] l from by simp [stepPool, hpl]] at hl
        exact timerInv_extend grace l _ wd en d ih hl hd (by simp [isAcquireFor])

/-- C2: over every `acquire`/`release`/timer trace, the pool keeps at most
one live entry per working directory; a worker is spawned only when no entry
(hence no outstanding reference) exists for the directory, and between two
spawns for one directory its process is terminated; and a termination
happens only on a grace timer firing at or after the deadline armed by the
`release` that dropped the count to 0 — the full grace duration elapsed —
with no intervening `acquire` for that directory. -/
theorem c2_cliProcessPool_lifecycle (grace : Nat) (evs : List PoolEvent) :
    (∀ wd, countCwd (poolKeys (runPool grace [] evs)) wd ≤ 1) ∧
    (∀ pre e post wd, evs = pre ++ e :: post →
      PoolAction.spawn wd ∈ (stepPool grace (runPool grace [] pre) e).2 →
      lookupEntry (runPool grace [] pre) wd = none) ∧
    (∀ pre1 e1 mid e2 post wd,
      evs = pre1 ++ e1 :: (mid ++ e2 :: post) →
      PoolAction.spawn wd ∈ (stepPool grace (runPool grace [] pre1) e1).2 →
      PoolAction.spawn wd ∈
        (stepPool grace (runPool grace [] (pre1 ++ e1 :: mid)) e2).2 →
      ∃ m1 em m2, mid = m1 ++ em :: m2 ∧
        PoolAction.terminate wd ∈
          (stepPool grace (runPool grace [] (pre1 ++ e1 :: m1)) em).2) ∧
    (∀ pre e post wd, evs = pre ++ e :: post →
      PoolAction.terminate wd ∈ (stepPool grace (runPool grace [] pre) e).2 →
      ∃ t en, e = PoolEvent.timerFire wd t ∧
        lookupEntry (runPool grace [] pre) wd = some en ∧ en.refCount = 0 ∧
        ∃ tr p1 p2, pre = p1 ++ PoolEvent.release wd tr :: p2 ∧
          (∀ ev ∈ p2, isAcquireFor wd ev = false) ∧ tr + grace ≤ t) := by
  refine ⟨fun wd => poolKeysOk_run grace evs [] poolKeysOk_nil wd, ?_, ?_, ?_⟩
  · intro pre e post wd _ hsp
    exact (spawn_step grace _ e wd hsp).1
  · intro pre1 e1 mid e2 post wd _ hs1 hs2
    obtain ⟨hl1, t1, he1, hst1⟩ := spawn_step grace _ e1 wd hs1
    obtain ⟨hl2, t2, he2, hst2⟩ := spawn_step grace _ e2 wd hs2
    have hpost : lookupEntry (stepPool grace (runPool grace [] pre1) e1).1 wd
        = some (CliProcessEntry.mk 1 none) := by
      rw [hst1]
      exact lookup_append_single_self _ wd _ hl1
    have hrew : runPool grace [] (pre1 ++ e1 :: mid)
        = runPool grace (stepPool grace (runPool grace [] pre1) e1).1 mid := by
      rw [show pre1 ++ e1 :: mid = (pre1 ++ [e1]) ++ mid from by simp,
        runPool_append, runPool_append]
      rfl
    rw [hrew] at hl2
    obtain ⟨m1, em, m2, hmdec, hterm⟩ :=
      run_lost_terminate grace mid _ wd _ hpost hl2
    refine ⟨m1, em, m2, hmdec, ?_⟩
    rw [show pre1 ++ e1 :: m1 = (pre1 ++ [e1]) ++ m1 from by simp,
      runPool_append, runPool_append]
    exact hterm
  · intro pre e post wd _ hterm
    obtain ⟨t, en, he, hl, hrc, hdr, _⟩ := terminate_step grace _ e wd hterm
    cases hgd : en.graceDeadline with
    | none =>
      rw [hgd] at hdr
      simp [deadlineReached] at hdr
    | some dd =>
      have hdle : dd ≤ t := by
        rw [hgd] at hdr
        simpa [deadlineReached] using hdr
      obtain ⟨_, p1, tr, p2, hpdec, hdg, hacq⟩ :=
        timerInv_all grace pre wd en dd hl hgd
      exact ⟨t, en, he, hl, hrc, tr, p1, p2, hpdec, hacq, by omega⟩

/-- Witness for C2 on the concrete trace acquire, release, timer-fire for
directory "w" with grace 5: at most one entry, the spawn found no entry, and
the termination satisfies the grace conditions. -/
theorem c2_cliProcessPool_lifecycle_witness :
    countCwd (poolKeys (runPool 5 [] [PoolEvent.acquire "w" 0,
      PoolEvent.release "w" 1, PoolEvent.timerFire "w" 10])) "w" ≤ 1 ∧
    lookupEntry (runPool 5 [] ([] : List PoolEvent)) "w" = none ∧
    (∃ t en, PoolEvent.timerFire "w" 10 = PoolEvent.timerFire "w" t ∧
      lookupEntry (runPool 5 []
          [PoolEvent.acquire "w" 0, PoolEvent.release "w" 1]) "w"
        = some en ∧ en.refCount = 0 ∧
      ∃ tr p1 p2, [PoolEvent.acquire "w" 0, PoolEvent.release "w" 1]
          = p1 ++ PoolEvent.release "w" tr :: p2 ∧
        (∀ ev ∈ p2, isAcquireFor "w" ev = false) ∧ tr + 5 ≤ t) := by
  have h := c2_cliProcessPool_lifecycle 5 [PoolEvent.acquire "w" 0,
    PoolEvent.release "w" 1, PoolEvent.timerFire "w" 10]
  refine ⟨h.1 "w", ?_, ?_⟩
  · exact h.2.1 [] (PoolEvent.acquire "w" 0)
      [PoolEvent.release "w" 1, PoolEvent.timerFire "w" 10] "w" rfl (by decide)
  · exact h.2.2.2 [PoolEvent.acquire "w" 0, PoolEvent.release "w" 1]
      (PoolEvent.timerFire "w" 10) [] "w" rfl (by decide)

end TunnelProxy
